import Mathlib

/-!
# Verification of `utils/map_repo_urls.py`

A shallow embedding of the single-file utility `map_repo_urls.py`, which
reads service-metadata JSON files, extracts repository URLs from their
`codeRepositories` lists, substitutes each URL into a command template and
runs (or prints) the resulting shell command.

The embedding models the program as a pure function from its inputs
(command-line arguments and a file-system oracle that stands for
`open` + `json.load`) to a trace of observable effects (log warnings,
stdout prints, shell invocations) together with an optional uncaught
Python exception that terminates the run.

Python-version note: the code is Python 3 (it uses `subprocess.run`).
Under every currently supported Python (3.7+, PEP 479), an explicit
`raise StopIteration` inside a generator body is replaced by a
`RuntimeError` when it would propagate out of the generator frame; the
embedding models that semantics, since it is the behaviour of the code
as it runs today.
-/

set_option maxHeartbeats 1000000

namespace MapRepoUrls

/-- JSON values, the result of Python's `json.load`.  Objects are ordered
association lists; `json.load` produces `dict`s, whose keys are distinct
(on duplicate keys in the source text the last one wins), so all objects
built below have distinct keys. -/
inductive Json where
  | null : Json
  | bool (b : Bool) : Json
  | num (n : Int) : Json
  | str (s : String) : Json
  | arr (elems : List Json) : Json
  | obj (fields : List (String × Json)) : Json

/-- Python `dict.get(key, None)`: first binding of `key`, if any.
Callers in this program only apply `.get` to JSON objects (Python would
raise `AttributeError` on any other value; no claim exercises that). -/
def Json.get? : Json → String → Option Json
  | .obj fields, key => (fields.find? (fun kv => kv.1 == key)).map (·.2)
  | _, _ => none

/-- Python `dict.get(key, default)`: the default is used only when the key
is absent, not when its value is falsy. -/
def Json.getD (j : Json) (key : String) (default : Json) : Json :=
  (j.get? key).getD default

/-- Python truthiness (`bool(v)`) for JSON-representable values:
`None`, `False`, `0`, `""`, `[]` and `{}` are falsy. -/
def Json.truthy : Json → Bool
  | .null => false
  | .bool b => b
  | .num n => n != 0
  | .str s => !s.isEmpty
  | .arr elems => !elems.isEmpty
  | .obj fields => !fields.isEmpty

/-- `get_service_name(service_meta, fallback="unnamed")`:
`service_meta.get("service", None) or service_meta.get("serviceKey", None)
or fallback` — Python `or` returns its first truthy operand, else the last
operand. -/
def get_service_name (service_meta : Json) (fallback : Json := Json.str "unnamed") : Json :=
  let v1 := service_meta.getD "service" Json.null
  if v1.truthy then v1
  else
    let v2 := service_meta.getD "serviceKey" Json.null
    if v2.truthy then v2 else fallback

/-- The two warnings `iter_repo_urls` can log via `logger.warn`.
`noCodeRepositories` carries the formatted service name;
`noUrl` carries the service name and the entry's 0-based `enumerate`
index, in the argument order of the format call
`"No url found for repo {} in service {}".format(service_name, i)`. -/
inductive Warning where
  | noCodeRepositories (serviceName : Json) : Warning
  | noUrl (serviceName : Json) (index : Nat) : Warning

/-- Uncaught Python exceptions that abort the run. -/
inductive RunError where
  /-- `open` failed (e.g. `FileNotFoundError`). -/
  | fileError : RunError
  /-- `json.load` failed (`json.JSONDecodeError`). -/
  | parseError : RunError
  /-- PEP 479: `raise StopIteration` inside a generator body becomes
  `RuntimeError("generator raised StopIteration")` (Python 3.7+). -/
  | runtimeError : RunError
  /-- e.g. `None.replace(...)` or `repo.get(...)` on a non-dict. -/
  | attributeError : RunError
  /-- e.g. iterating a non-iterable `codeRepositories` value. -/
  | typeError : RunError
deriving DecidableEq

/-- One step of the `iter_repo_urls` generator as observed by its consumer:
either a `logger.warn` side effect or a yielded value. -/
inductive ExtEvent where
  | warn (w : Warning) : ExtEvent
  | url (u : Json) : ExtEvent

/-- The `for i, repo in enumerate(...)` loop body of `iter_repo_urls`,
carrying the current `enumerate` index.  For each entry:
`repo_url = repo.get("url", None)`; if falsy, log
`"No url found for repo {} in service {}".format(service_name, i)` and
`continue`; otherwise `yield repo_url`.  A non-dict entry raises
`AttributeError` from `repo.get`, which propagates out of the generator
unchanged (only `StopIteration` is rewritten by PEP 479). -/
def repos_loop (service_name : Json) : Nat → List Json → List ExtEvent × Option RunError
  | _, [] => ([], none)
  | i, repo :: rest =>
    match repo with
    | .obj _ =>
      let repo_url := repo.getD "url" Json.null
      if repo_url.truthy then
        let (evs, err) := repos_loop service_name (i + 1) rest
        (.url repo_url :: evs, err)
      else
        let (evs, err) := repos_loop service_name (i + 1) rest
        (.warn (.noUrl service_name i) :: evs, err)
    | _ => ([], some .attributeError)

/-- `iter_repo_urls(service_meta)` as an event trace plus the exception, if
any, with which the generator's frame aborts its consumer.

```
repos = service_meta.get("codeRepositories", [])
service_name = get_service_name(service_meta)
if not repos:
    logger.warn("No codeRepositories found for service {}".format(service_name))
    raise StopIteration        # PEP 479: RuntimeError in Python 3.7+
for i, repo in enumerate(service_meta.get("codeRepositories", [])):
    ...
```

The second `service_meta.get("codeRepositories", [])` re-reads the same
unmutated dict, so it equals `repos`.  A truthy non-list `repos` would
raise on iteration or on `repo.get` (no claim exercises it); it is
modelled as `typeError`. -/
def iter_repo_urls (service_meta : Json) : List ExtEvent × Option RunError :=
  let repos := service_meta.getD "codeRepositories" (Json.arr [])
  let service_name := get_service_name service_meta
  if !repos.truthy then
    ([.warn (.noCodeRepositories service_name)], some .runtimeError)
  else
    match repos with
    | .arr entries => repos_loop service_name 0 entries
    | _ => ([], some .typeError)

/-- The URLs a trace of extractor events yields, in order. -/
def urlsOf (evs : List ExtEvent) : List Json :=
  evs.filterMap fun ev => match ev with | .url u => some u | .warn _ => none

/-- The warnings a trace of extractor events logs, in order. -/
def warnsOf (evs : List ExtEvent) : List Warning :=
  evs.filterMap fun ev => match ev with | .warn w => some w | .url _ => none

/-- Python `str.replace(old, new)` specialised to the placeholder
`old = "{}"` used at `args.cmd.replace("{}", repo_url)`: one left-to-right
scan over the template; at each position, if the next two characters are
`{` `}`, emit the replacement and skip both; otherwise emit the character
and advance by one.  (For the two-character pattern `"{}"`, whose
characters differ, this non-overlapping greedy scan is exactly CPython's
`str.replace`.) -/
def replaceBrace (url : List Char) : List Char → List Char
  | [] => []
  | '{' :: '}' :: rest => url ++ replaceBrace url rest
  | '{' :: rest => '{' :: replaceBrace url rest
  | c :: rest => c :: replaceBrace url rest

/-- `template.replace("{}", url)` on `String`s. -/
def pyReplace (template url : String) : String :=
  ⟨replaceBrace url.data template.data⟩

/-- Python `repr` of a string, as interpolated by `"would run {!r}"`:
the string between single quotes.  (CPython escapes quotes and
non-printables and may switch quote characters; commands built from the
claims' templates and URLs contain neither, so this simple form is
faithful on every input the theorems below use.) -/
def pyRepr (s : String) : String :=
  "'" ++ s ++ "'"

/-- Observable effects of a run, in program order. -/
inductive Effect where
  /-- a `logger.warn(...)` record actually emitted (warning level). -/
  | warn (w : Warning) : Effect
  /-- a `print(...)` line on stdout. -/
  | print (s : String) : Effect
  /-- `subprocess.run(cmd, universal_newlines=True, shell=True)`:
  one synchronous shell invocation; `subprocess.run` waits for the child
  and its `CompletedProcess` result is discarded, so the effect carries
  no exit status. -/
  | exec (cmd : String) : Effect

/-- Whether an effect is a warning-level log record (the only records this
program emits below error level, hence the ones `-q` suppresses). -/
def Effect.isWarn : Effect → Bool
  | .warn _ => true
  | _ => false

/--
```
def run_command_on_repo(cmd, dry_run):
    if dry_run:
        print("would run {!r}".format(cmd))
        return
    subprocess.run(cmd, universal_newlines=True, shell=True)
```
-/
def run_command_on_repo (cmd : String) (dry_run : Bool) : List Effect :=
  if dry_run then [.print ("would run " ++ pyRepr cmd)]
  else [.exec cmd]

/-- The body of `main`'s inner loop for one yielded `repo_url`:
`run_command_on_repo(args.cmd.replace("{}", repo_url), args.dry_run)`.
(The preceding line `service_name = get_service_name(service_meta)` binds
a variable that is never used and has no effect.)  When `-c` was omitted,
`args.cmd` is `None` and `None.replace` raises `AttributeError`; when the
yielded value is not a string, `str.replace` raises `TypeError`. -/
def run_one (cmd? : Option String) (dry_run : Bool) (repo_url : Json) :
    List Effect × Option RunError :=
  match cmd? with
  | none => ([], some .attributeError)
  | some cmd =>
    match repo_url with
    | .str u => (run_command_on_repo (pyReplace cmd u) dry_run, none)
    | _ => ([], some .typeError)

/-- `main`'s inner `for repo_url in iter_repo_urls(service_meta)` loop,
consuming the generator's event trace in order: warnings are logged as the
generator runs between yields; each yielded URL is passed to the runner.
An exception from the loop body abandons the rest of the trace. -/
def process_events (cmd? : Option String) (dry_run : Bool) :
    List ExtEvent → List Effect × Option RunError
  | [] => ([], none)
  | .warn w :: rest =>
    let (effs, err) := process_events cmd? dry_run rest
    (.warn w :: effs, err)
  | .url u :: rest =>
    match run_one cmd? dry_run u with
    | (effs, some e) => (effs, some e)
    | (effs, none) =>
      let (effs2, err) := process_events cmd? dry_run rest
      (effs ++ effs2, err)

/-- Processing of one loaded metadata object by `main`'s nested loops:
run the extractor's events through the inner loop; if the body raised, that
exception aborts first, otherwise the exception (if any) with which the
generator itself finished — under PEP 479 the `raise StopIteration` of the
empty-`codeRepositories` branch, rewritten to `RuntimeError` — propagates
when the exhausted generator is advanced. -/
def process_meta (cmd? : Option String) (dry_run : Bool) (service_meta : Json) :
    List Effect × Option RunError :=
  let (evs, generr) := iter_repo_urls service_meta
  let (effs, byerr) := process_events cmd? dry_run evs
  (effs, match byerr with | some e => some e | none => generr)

/-- The file-system-and-parser oracle standing for `open(path, "r")`
followed by `json.load`: per path, either the parsed JSON value,
`.error .fileError` (the path cannot be opened) or `.error .parseError`
(the contents are not valid JSON). -/
def FileSystem : Type := String → Except RunError Json

/-- `main`'s outer loop over `iter_service_metadata(args.json_files)`:
the loader generator opens and parses one file per step, in order; a
`FileError`/`ParseError` from `iter_service_metadata`, or any exception
from processing a loaded object, is uncaught and aborts the whole run
(no further file is opened). -/
def main_files (fs : FileSystem) (cmd? : Option String) (dry_run : Bool) :
    List String → List Effect × Option RunError
  | [] => ([], none)
  | f :: rest =>
    match fs f with
    | .error e => ([], some e)
    | .ok service_meta =>
      match process_meta cmd? dry_run service_meta with
      | (effs, some e) => (effs, some e)
      | (effs, none) =>
        let (effs2, err) := main_files fs cmd? dry_run rest
        (effs ++ effs2, err)

/-- Parsed command-line arguments (`parse_args`): `-c` alias `--command`
(`cmd`, absent when omitted), `-n` alias `--dry-run`, `-q` alias
`--quiet`, and the positional JSON file paths. -/
structure Args where
  cmd : Option String
  dry_run : Bool
  quiet : Bool
  json_files : List String

/-- `main()`: with `-q`, `logger.setLevel(logging.getLevelName("ERROR"))`
is executed once before any processing, so every subsequent `logger.warn`
call emits nothing; all other effects and the propagation of uncaught
exceptions (hence the process exit status) are unchanged. -/
def main_run (fs : FileSystem) (args : Args) : List Effect × Option RunError :=
  let (effs, err) := main_files fs args.cmd args.dry_run args.json_files
  (if args.quiet then effs.filter (fun e => !e.isWarn) else effs, err)

/-- The commands passed to the shell during a run, in order. -/
def execsOf (effs : List Effect) : List String :=
  effs.filterMap fun e => match e with | .exec c => some c | _ => none

/-! ## Fixtures and specification-side definitions used by the theorems -/

/-- A `codeRepositories` entry with the given optional `url` string:
`{"url": u}` when present, `{}` when missing. -/
def entryOfUrl : Option String → Json
  | none => Json.obj []
  | some u => Json.obj [("url", Json.str u)]

/-- A service-metadata object `{"service": name, "codeRepositories": [...]}`
whose entries have the given optional `url` strings. -/
def metaOfEntries (name : String) (es : List (Option String)) : Json :=
  Json.obj [("service", Json.str name), ("codeRepositories", Json.arr (es.map entryOfUrl))]

/-- The extractor's expected event trace for the entries `es` starting at
`enumerate` index `i`: a yielded URL for each non-empty `url`, a
missing-url warning with the entry's index for each missing or empty one. -/
def expectedEvents (name : Json) : Nat → List (Option String) → List ExtEvent
  | _, [] => []
  | i, none :: rest => .warn (.noUrl name i) :: expectedEvents name (i + 1) rest
  | i, some u :: rest =>
    if u = "" then .warn (.noUrl name i) :: expectedEvents name (i + 1) rest
    else .url (Json.str u) :: expectedEvents name (i + 1) rest

/-- The non-empty `url` strings of the entries `es`, in order. -/
def goodUrls : List (Option String) → List String
  | [] => []
  | none :: rest => goodUrls rest
  | some u :: rest => if u = "" then goodUrls rest else u :: goodUrls rest

/-- One missing-url warning per entry of `es` whose `url` is missing or
empty, in order, carrying the entry's 0-based index (counted from `i`). -/
def missingUrlWarns (name : Json) : Nat → List (Option String) → List Warning
  | _, [] => []
  | i, none :: rest => .noUrl name i :: missingUrlWarns name (i + 1) rest
  | i, some u :: rest =>
    if u = "" then .noUrl name i :: missingUrlWarns name (i + 1) rest
    else missingUrlWarns name (i + 1) rest

/-- Prepend a character to the first piece of a split (used by
`splitBrace`). -/
def consHead (c : Char) : List (List Char) → List (List Char)
  | [] => [[c]]
  | p :: ps => (c :: p) :: ps

/-- Split a template at each literal occurrence of the placeholder `{}`,
scanning left to right: the pieces between (and around) the occurrences. -/
def splitBrace : List Char → List (List Char)
  | [] => [[]]
  | '{' :: '}' :: rest => [] :: splitBrace rest
  | '{' :: rest => consHead '{' (splitBrace rest)
  | c :: rest => consHead c (splitBrace rest)

/-- Join pieces with a separator between consecutive pieces. -/
def joinWith (sep : List Char) : List (List Char) → List Char
  | [] => []
  | [p] => p
  | p :: ps => p ++ sep ++ joinWith sep ps

/-- Modelled from the spec: "produce the command with every placeholder
occurrence replaced by the URL (literal substring replacement, not
regex)" — the template is split at every literal occurrence of `{}` and
the pieces are rejoined with the URL in place of each occurrence. -/
def specReplaceAll (template url : String) : String :=
  ⟨joinWith url.data (splitBrace template.data)⟩

/-- The string payload of a yielded value, when it is a string. -/
def Json.asStr? : Json → Option String
  | .str s => some s
  | _ => none

/-- The string URLs among the yielded values of an event trace, in order. -/
def strUrlsOf (evs : List ExtEvent) : List String :=
  (urlsOf evs).filterMap Json.asStr?

/-- A metadata object on which the extractor terminates without an
exception and yields only string URLs. -/
def cleanMeta (m : Json) : Bool :=
  ((iter_repo_urls m).2).isNone && (urlsOf (iter_repo_urls m).1).all fun u => u.asStr?.isSome

/-- A path that loads to a `cleanMeta` metadata object. -/
def cleanFile (fs : FileSystem) (f : String) : Bool :=
  match fs f with
  | .error _ => false
  | .ok m => cleanMeta m

/-- The string URLs the extractor yields for the metadata object loaded
from `f` (empty if the file fails to load). -/
def fileUrls (fs : FileSystem) (f : String) : List String :=
  match fs f with
  | .error _ => []
  | .ok m => strUrlsOf (iter_repo_urls m).1

/-- Fixture: a service-metadata object with no `codeRepositories` key,
`{"service": "Tiles"}`. -/
def metaNoRepos : Json := Json.obj [("service", Json.str "Tiles")]

/-- Fixture: `{"service": "Foo", "codeRepositories": [{"url": "https://a.git"}]}`. -/
def metaOneUrl : Json := metaOfEntries "Foo" [some "https://a.git"]

/-- Fixture file system: path "a" holds `metaNoRepos`, every other path
holds `metaOneUrl`. -/
def fsNoReposFirst : FileSystem :=
  fun f => if f = "a" then .ok metaNoRepos else .ok metaOneUrl

/-! ## Helper lemmas -/

theorem repos_loop_map_entryOfUrl (name : Json) (i : Nat) (es : List (Option String)) :
    repos_loop name i (es.map entryOfUrl) = (expectedEvents name i es, none) := by
  induction es generalizing i with
  | nil => rfl
  | cons o rest ih =>
    cases o with
    | none =>
      simp [entryOfUrl, repos_loop, expectedEvents, Json.getD, Json.get?, Json.truthy, ih]
    | some u =>
      by_cases hu : u = ""
      · subst hu
        simp [entryOfUrl, repos_loop, expectedEvents, Json.getD, Json.get?, Json.truthy, ih,
          String.isEmpty_iff]
      · simp [entryOfUrl, repos_loop, expectedEvents, Json.getD, Json.get?, Json.truthy, ih,
          hu, String.isEmpty_iff]

theorem iter_repo_urls_metaOfEntries (name : String) (es : List (Option String))
    (hne : es ≠ []) (hname : name ≠ "") :
    iter_repo_urls (metaOfEntries name es) = (expectedEvents (Json.str name) 0 es, none) := by
  have hmap : es.map entryOfUrl ≠ [] := by simpa using hne
  have hnm : name.isEmpty = false := by
    cases h : name.isEmpty with
    | false => rfl
    | true => exact absurd ((String.isEmpty_iff name).mp h) hname
  simp [iter_repo_urls, metaOfEntries, Json.getD, Json.get?, Json.truthy, get_service_name,
    hmap, hnm, repos_loop_map_entryOfUrl]

theorem urlsOf_expectedEvents (name : Json) (i : Nat) (es : List (Option String)) :
    urlsOf (expectedEvents name i es) = (goodUrls es).map Json.str := by
  induction es generalizing i with
  | nil => rfl
  | cons o rest ih =>
    cases o with
    | none => simp [expectedEvents, goodUrls, urlsOf] at ih ⊢; exact ih _
    | some u =>
      by_cases hu : u = ""
      · subst hu
        simp [expectedEvents, goodUrls, urlsOf] at ih ⊢; exact ih _
      · simp [expectedEvents, goodUrls, urlsOf, hu] at ih ⊢; exact ih _

theorem warnsOf_expectedEvents (name : Json) (i : Nat) (es : List (Option String)) :
    warnsOf (expectedEvents name i es) = missingUrlWarns name i es := by
  induction es generalizing i with
  | nil => rfl
  | cons o rest ih =>
    cases o with
    | none => simp [expectedEvents, missingUrlWarns, warnsOf] at ih ⊢; exact ih _
    | some u =>
      by_cases hu : u = ""
      · subst hu
        simp [expectedEvents, missingUrlWarns, warnsOf] at ih ⊢; exact ih _
      · simp [expectedEvents, missingUrlWarns, warnsOf, hu] at ih ⊢; exact ih _

theorem missingUrlWarns_length_add (name : Json) (i : Nat) (es : List (Option String)) :
    (missingUrlWarns name i es).length + (goodUrls es).length = es.length := by
  induction es generalizing i with
  | nil => rfl
  | cons o rest ih =>
    cases o with
    | none =>
      simp [missingUrlWarns, goodUrls]
      have := ih (i + 1); omega
    | some u =>
      by_cases hu : u = ""
      · subst hu
        simp [missingUrlWarns, goodUrls]
        have := ih (i + 1); omega
      · simp [missingUrlWarns, goodUrls, hu]
        have := ih (i + 1); omega

/-! ## Claims -/

/-- **C1.** The claim: for a metadata object whose `codeRepositories` key
is absent or empty, `iter_repo_urls` emits one warning naming the service,
yields no URLs, and terminates the sequence *normally*, so that processing
continues with the next metadata object.  The code emits the warning and
yields nothing, but its `raise StopIteration` inside the generator is
rewritten to `RuntimeError` by PEP 479 (Python 3.7+), aborting the whole
run: here file "a" (`{"service": "Tiles"}`, no `codeRepositories`) is
followed by file "b", which holds one URL, yet the run ends with the
`RuntimeError` after the single warning and never executes a command for
file "b" — contradicting the claim (and the module docstring's example,
which shows processing continuing past the warning). -/
theorem C1_empty_code_repositories_aborts_run :
    main_run fsNoReposFirst ⟨some "echo {}", false, false, ["a", "b"]⟩
      = ([.warn (.noCodeRepositories (Json.str "Tiles"))], some .runtimeError) := rfl

/-- **C2.** The claim: with `-c` omitted, the program prints a line with
the service name and the URL for each extracted URL and executes nothing.
In the code `args.cmd` is then `None`, and the first extracted URL reaches
`args.cmd.replace("{}", repo_url)`, which raises `AttributeError`
(`None` has no attribute `replace`): on a file with one URL the run aborts
with no output at all — contradicting the claim and the option's own help
text ("Defaults to printing the service name and repo url"); the dead
assignment `service_name = get_service_name(service_meta)` in the loop is
a vestige of the documented fallback. -/
theorem C2_omitted_command_raises_attribute_error :
    main_run (fun _ => .ok metaOneUrl) ⟨none, false, false, ["f"]⟩
      = ([], some .attributeError) := rfl

/-- **C5.** A path that cannot be opened (`FileError`) or whose contents
are not valid JSON (`ParseError`) aborts the entire run: the loader's
exception is uncaught, the run's effect trace is empty — so nothing was
converted to a warning — and no subsequent file is processed (the result
does not depend on `rest`), with the error recorded as the run's uncaught
exception (hence a non-zero process exit status). -/
theorem C5_loader_failure_aborts_run (fs : FileSystem) (cmd? : Option String)
    (dry quiet : Bool) (f : String) (rest : List String) (e : RunError)
    (_he : e = .fileError ∨ e = .parseError) (hf : fs f = .error e) :
    main_run fs ⟨cmd?, dry, quiet, f :: rest⟩ = ([], some e) := by
  cases quiet <;> simp [main_run, main_files, hf]

/-- Witness for C5 at a concrete run: one unparsable file followed by
another path; the run aborts with the `ParseError` and an empty trace. -/
theorem C5_loader_failure_aborts_run_witness :
    main_run (fun _ => .error .parseError) ⟨some "echo {}", false, false, ["bad", "later"]⟩
      = ([], some .parseError) :=
  C5_loader_failure_aborts_run _ _ _ _ _ _ _ (Or.inr rfl) rfl

/-- **C7.** `run_command_on_repo`: in dry-run mode it prints exactly the
substituted command prefixed with "would run" and invokes no process
(no `exec` effect); otherwise it performs exactly one synchronous shell
invocation of the command — and, the runner returning no value, the
child's exit status is neither inspected nor propagated. -/
theorem C7_runner_dry_run_prints_normal_execs_once (cmd : String) :
    run_command_on_repo cmd true = [.print ("would run " ++ pyRepr cmd)] ∧
    execsOf (run_command_on_repo cmd true) = [] ∧
    run_command_on_repo cmd false = [.exec cmd] ∧
    execsOf (run_command_on_repo cmd false) = [cmd] :=
  ⟨rfl, rfl, rfl, rfl⟩

/-- **C3.** For a non-empty `codeRepositories` list built from the
optional `url` strings `es` (and a non-empty service name), the extractor
terminates without an exception, yields exactly the non-empty `url`
strings of `es` in their original relative order, and logs exactly one
missing-url warning per entry whose `url` is missing or empty, each
carrying that entry's 0-based index — so the number of warnings is the
number of entries minus the number of yielded URLs. -/
theorem C3_extractor_yields_and_warns_per_entry (name : String) (es : List (Option String))
    (hne : es ≠ []) (hname : name ≠ "") :
    (iter_repo_urls (metaOfEntries name es)).2 = none ∧
    urlsOf (iter_repo_urls (metaOfEntries name es)).1 = (goodUrls es).map Json.str ∧
    warnsOf (iter_repo_urls (metaOfEntries name es)).1 = missingUrlWarns (Json.str name) 0 es ∧
    (warnsOf (iter_repo_urls (metaOfEntries name es)).1).length
      = es.length - (goodUrls es).length := by
  rw [iter_repo_urls_metaOfEntries name es hne hname]
  refine ⟨rfl, urlsOf_expectedEvents _ _ _, warnsOf_expectedEvents _ _ _, ?_⟩
  rw [warnsOf_expectedEvents]
  have := missingUrlWarns_length_add (Json.str name) 0 es
  omega

/-- Witness for C3 on three entries: one good URL, one missing `url`, one
empty `url` — one yielded URL, two warnings carrying indices 1 and 2. -/
theorem C3_extractor_yields_and_warns_per_entry_witness :
    (iter_repo_urls (metaOfEntries "Svc" [some "https://a.git", none, some ""])).2 = none ∧
    urlsOf (iter_repo_urls (metaOfEntries "Svc" [some "https://a.git", none, some ""])).1
      = (goodUrls [some "https://a.git", none, some ""]).map Json.str ∧
    warnsOf (iter_repo_urls (metaOfEntries "Svc" [some "https://a.git", none, some ""])).1
      = missingUrlWarns (Json.str "Svc") 0 [some "https://a.git", none, some ""] ∧
    (warnsOf (iter_repo_urls (metaOfEntries "Svc" [some "https://a.git", none, some ""])).1).length
      = [some "https://a.git", none, some ""].length
          - (goodUrls [some "https://a.git", none, some ""]).length :=
  C3_extractor_yields_and_warns_per_entry "Svc" [some "https://a.git", none, some ""]
    (by decide) (by decide)

/-- **C9.** For a non-empty `codeRepositories` list in which every
entry's `url` is missing or empty, the extractor terminates normally
(no exception — in particular the `raise StopIteration` branch is not
reached), its trace consists of exactly one missing-url warning per entry
carrying the indices `0, 1, …, N−1` in order, and contains no yielded URL
and no service-level "No codeRepositories" warning. -/
theorem C9_all_urls_missing_warns_each_entry (name : String) (es : List (Option String))
    (hne : es ≠ []) (hname : name ≠ "") (hbad : ∀ o ∈ es, o = none ∨ o = some "") :
    iter_repo_urls (metaOfEntries name es)
      = ((List.range es.length).map fun i => .warn (.noUrl (Json.str name) i), none) := by
  rw [iter_repo_urls_metaOfEntries name es hne hname, List.range_eq_range']
  have key : ∀ (i : Nat) (l : List (Option String)), (∀ o ∈ l, o = none ∨ o = some "") →
      expectedEvents (Json.str name) i l
        = (List.range' i l.length).map fun j => .warn (.noUrl (Json.str name) j) := by
    intro i l hl
    induction l generalizing i with
    | nil => rfl
    | cons o rest ih =>
      have ho := hl o (by simp)
      have hrest : ∀ o ∈ rest, o = none ∨ o = some "" := fun o ho => hl o (by simp [ho])
      rcases ho with rfl | rfl
      · simp [expectedEvents, List.range'_succ, ih _ hrest]
      · simp [expectedEvents, List.range'_succ, ih _ hrest]
  simp [key 0 es hbad]

/-- Witness for C9 on two entries (a missing `url` and an empty one):
the trace is two missing-url warnings with indices 0 and 1 and no
exception. -/
theorem C9_all_urls_missing_warns_each_entry_witness :
    iter_repo_urls (metaOfEntries "Svc" [none, some ""])
      = ((List.range [none, some ""].length).map
          fun i => ExtEvent.warn (.noUrl (Json.str "Svc") i), none) :=
  C9_all_urls_missing_warns_each_entry "Svc" [none, some ""] (by decide) (by decide) (by decide)

theorem consHead_ne_nil (c : Char) (L : List (List Char)) : consHead c L ≠ [] := by
  cases L <;> simp [consHead]

theorem splitBrace_ne_nil (s : List Char) : splitBrace s ≠ [] := by
  induction s using splitBrace.induct with
  | case1 => simp [splitBrace]
  | case2 rest ih => simp [splitBrace]
  | case3 rest h ih => exact fun hc => consHead_ne_nil _ _ (by simpa [splitBrace, h] using hc)
  | case4 c rest h1 h2 ih => exact fun hc => consHead_ne_nil _ _ (by simpa [splitBrace, h1, h2] using hc)

theorem joinWith_cons_nil (sep : List Char) (L : List (List Char)) (h : L ≠ []) :
    joinWith sep ([] :: L) = sep ++ joinWith sep L := by
  match L with
  | [] => exact absurd rfl h
  | [p] => rfl
  | p :: q :: ps => rfl

theorem joinWith_consHead (sep : List Char) (c : Char) (L : List (List Char)) (h : L ≠ []) :
    joinWith sep (consHead c L) = c :: joinWith sep L := by
  match L with
  | [] => exact absurd rfl h
  | [p] => rfl
  | p :: q :: ps => rfl

theorem replaceBrace_eq_joinWith_splitBrace (url s : List Char) :
    replaceBrace url s = joinWith url (splitBrace s) := by
  induction s using replaceBrace.induct url with
  | case1 => rfl
  | case2 rest ih =>
    show url ++ replaceBrace url rest = joinWith url ([] :: splitBrace rest)
    rw [joinWith_cons_nil url _ (splitBrace_ne_nil rest), ih]
  | case3 rest h ih =>
    have e1 : replaceBrace url ('{' :: rest) = '{' :: replaceBrace url rest := by
      simp [replaceBrace, h]
    have e2 : splitBrace ('{' :: rest) = consHead '{' (splitBrace rest) := by
      simp [splitBrace, h]
    rw [e1, e2, joinWith_consHead url _ _ (splitBrace_ne_nil rest), ih]
  | case4 c rest h1 h2 ih =>
    have e1 : replaceBrace url (c :: rest) = c :: replaceBrace url rest := by
      simp [replaceBrace, h1, h2]
    have e2 : splitBrace (c :: rest) = consHead c (splitBrace rest) := by
      simp [splitBrace, h1, h2]
    rw [e1, e2, joinWith_consHead url _ _ (splitBrace_ne_nil rest), ih]

/-- **C4.** Placeholder substitution: the command built by `main` from a
template and a URL — `args.cmd.replace("{}", repo_url)`, embedded as
`pyReplace` — equals the template with every literal occurrence of the
substring `{}` replaced by the URL (`specReplaceAll`, which splits the
template at each occurrence and rejoins the pieces with the URL); on a
run with one extracted URL, the command passed to the shell is exactly
that string; and in particular the template "echo {} {}" with the URL
"http://x" produces "echo http://x http://x". -/
theorem C4_replace_substitutes_every_occurrence (template url : String) (hurl : url ≠ "") :
    pyReplace template url = specReplaceAll template url ∧
    main_run (fun _ => .ok (metaOfEntries "Svc" [some url]))
        ⟨some template, false, false, ["f"]⟩
      = ([.exec (specReplaceAll template url)], none) ∧
    pyReplace "echo {} {}" "http://x" = "echo http://x http://x" := by
  have hrepl : pyReplace template url = specReplaceAll template url := by
    simp [pyReplace, specReplaceAll, replaceBrace_eq_joinWith_splitBrace]
  refine ⟨hrepl, ?_, rfl⟩
  have hiter := iter_repo_urls_metaOfEntries "Svc" [some url] (by simp) (by simp)
  have hev : expectedEvents (Json.str "Svc") 0 [some url] = [.url (Json.str url)] := by
    simp [expectedEvents, hurl]
  rw [hev] at hiter
  simp [main_run, main_files, process_meta, hiter, process_events, run_one,
    run_command_on_repo, hrepl, expectedEvents]

/-- Witness for C4 at the spec's example template and URL. -/
theorem C4_replace_substitutes_every_occurrence_witness :
    pyReplace "echo {} {}" "http://x" = specReplaceAll "echo {} {}" "http://x" ∧
    main_run (fun _ => .ok (metaOfEntries "Svc" [some "http://x"]))
        ⟨some "echo {} {}", false, false, ["f"]⟩
      = ([.exec (specReplaceAll "echo {} {}" "http://x")], none) ∧
    pyReplace "echo {} {}" "http://x" = "echo http://x http://x" :=
  C4_replace_substitutes_every_occurrence "echo {} {}" "http://x" (by decide)

theorem execsOf_append (l1 l2 : List Effect) :
    execsOf (l1 ++ l2) = execsOf l1 ++ execsOf l2 :=
  List.filterMap_append l1 l2 _

theorem process_events_clean (cmd : String) (evs : List ExtEvent)
    (h : ∀ u ∈ urlsOf evs, u.asStr?.isSome = true) :
    execsOf (process_events (some cmd) false evs).1 = (strUrlsOf evs).map (pyReplace cmd) ∧
    (process_events (some cmd) false evs).2 = none := by
  induction evs with
  | nil => exact ⟨rfl, rfl⟩
  | cons ev rest ih =>
    cases ev with
    | warn w =>
      have hrest := ih fun u hu => h u (by simp [urlsOf] at hu ⊢; exact hu)
      rcases hp : process_events (some cmd) false rest with ⟨effs, err⟩
      rw [hp] at hrest
      simp [process_events, hp, execsOf, strUrlsOf, urlsOf] at hrest ⊢
      exact hrest
    | url u =>
      have hu : u.asStr?.isSome = true := h u (by simp [urlsOf])
      obtain ⟨s, rfl⟩ : ∃ s, u = Json.str s := by
        cases u <;> simp [Json.asStr?] at hu ⊢
      have hrest := ih fun v hv => h v (by simp [urlsOf] at hv ⊢; exact Or.inr hv)
      rcases hp : process_events (some cmd) false rest with ⟨effs, err⟩
      rw [hp] at hrest
      simp [process_events, hp, run_one, run_command_on_repo, execsOf, strUrlsOf, urlsOf,
        Json.asStr?] at hrest ⊢
      exact hrest

theorem main_files_clean (fs : FileSystem) (cmd : String) (files : List String)
    (h : ∀ f ∈ files, cleanFile fs f = true) :
    execsOf (main_files fs (some cmd) false files).1
      = ((files.map (fileUrls fs)).flatten).map (pyReplace cmd) ∧
    (main_files fs (some cmd) false files).2 = none := by
  induction files with
  | nil => exact ⟨rfl, rfl⟩
  | cons f rest ih =>
    have hf := h f (by simp)
    have hrest := ih fun g hg => h g (by simp [hg])
    cases hfs : fs f with
    | error e => rw [cleanFile, hfs] at hf; exact absurd hf (by simp)
    | ok m =>
      have hclean : cleanMeta m = true := by rw [cleanFile, hfs] at hf; exact hf
      rcases hiter : iter_repo_urls m with ⟨evs, generr⟩
      have hb := hclean
      rw [cleanMeta, hiter] at hb
      simp only [Bool.and_eq_true, Option.isNone_iff_eq_none, List.all_eq_true] at hb
      have hgen : generr = none := hb.1
      have hall : ∀ u ∈ urlsOf evs, u.asStr?.isSome = true := hb.2
      have hpe := process_events_clean cmd evs hall
      rcases hp : process_events (some cmd) false evs with ⟨effs, byerr⟩
      rw [hp] at hpe
      obtain ⟨hpe1, hpe2⟩ := hpe
      subst hgen
      rcases hmf : main_files fs (some cmd) false rest with ⟨effs2, err2⟩
      rw [hmf] at hrest
      simp only at hpe2
      subst hpe2
      simp [main_files, hfs, process_meta, hiter, hp, hmf, execsOf_append, hpe1,
        fileUrls, strUrlsOf, hrest.1, hrest.2]

/-- **C6.** On a run whose files all load to metadata objects on which the
extractor finishes without an exception and yields only string URLs, the
sequence of commands passed to the shell is exactly the concatenation, in
input-file order, of each file's extracted URLs in `codeRepositories`
entry order, each substituted into the template — URLs from different
files are never interleaved or reordered — and the run finishes without an
uncaught exception. -/
theorem C6_shell_commands_follow_file_then_entry_order (fs : FileSystem) (cmd : String)
    (files : List String) (h : ∀ f ∈ files, cleanFile fs f = true) :
    execsOf (main_run fs ⟨some cmd, false, false, files⟩).1
      = ((files.map (fileUrls fs)).flatten).map (pyReplace cmd) ∧
    (main_run fs ⟨some cmd, false, false, files⟩).2 = none := by
  have hmf := main_files_clean fs cmd files h
  rcases hp : main_files fs (some cmd) false files with ⟨effs, err⟩
  rw [hp] at hmf
  simpa [main_run, hp] using hmf

/-- Witness for C6 on two files: "a" holds URLs u1, u2 and "b" holds u3;
the shell receives the substituted u1, u2, u3 in that order. -/
theorem C6_shell_commands_follow_file_then_entry_order_witness :
    (execsOf (main_run
        (fun f => if f = "a" then .ok (metaOfEntries "A" [some "u1", some "u2"])
                  else .ok (metaOfEntries "B" [some "u3"]))
        ⟨some "git clone {}", false, false, ["a", "b"]⟩).1
      = (([ "a", "b"].map (fileUrls
          (fun f => if f = "a" then .ok (metaOfEntries "A" [some "u1", some "u2"])
                    else .ok (metaOfEntries "B" [some "u3"])))).flatten).map
          (pyReplace "git clone {}")) ∧
    (main_run
        (fun f => if f = "a" then .ok (metaOfEntries "A" [some "u1", some "u2"])
                  else .ok (metaOfEntries "B" [some "u3"]))
        ⟨some "git clone {}", false, false, ["a", "b"]⟩).2 = none :=
  C6_shell_commands_follow_file_then_entry_order _ "git clone {}" ["a", "b"] (by decide)

/-- **C8.** Quiet mode: for every run, the trace with `-q` is exactly the
trace of the same run without `-q` with the warning-level records removed
— so no warning is emitted under `-q`, every other effect is unchanged
and in the same order, and the run's uncaught exception (hence the exit
status) is identical. -/
theorem C8_quiet_suppresses_warnings_only (fs : FileSystem) (cmd? : Option String)
    (dry : Bool) (files : List String) :
    (main_run fs ⟨cmd?, dry, true, files⟩).1
      = ((main_run fs ⟨cmd?, dry, false, files⟩).1).filter (fun e => !e.isWarn) ∧
    (∀ e ∈ (main_run fs ⟨cmd?, dry, true, files⟩).1, e.isWarn = false) ∧
    (main_run fs ⟨cmd?, dry, true, files⟩).2 = (main_run fs ⟨cmd?, dry, false, files⟩).2 := by
  rcases hmf : main_files fs cmd? dry files with ⟨effs, err⟩
  refine ⟨by simp [main_run, hmf], ?_, by simp [main_run, hmf]⟩
  intro e he
  simp [main_run, hmf, List.mem_filter] at he
  simpa using he.2

theorem self_infix_replaceBrace (u t : List Char) (ht : ['{', '}'] <:+: t) :
    u <:+: replaceBrace u t := by
  induction t using replaceBrace.induct u with
  | case1 => simp at ht
  | case2 rest ih =>
    show u <:+: u ++ replaceBrace u rest
    exact ⟨[], replaceBrace u rest, by simp⟩
  | case3 rest h ih =>
    have e1 : replaceBrace u ('{' :: rest) = '{' :: replaceBrace u rest := by
      simp [replaceBrace, h]
    have hrest : ['{', '}'] <:+: rest := by
      obtain ⟨s, t2, hst⟩ := ht
      cases s with
      | nil =>
        simp at hst
        exact absurd hst.symm (fun hc => h t2 hc)
      | cons a s2 =>
        refine ⟨s2, t2, ?_⟩
        have h2 := hst
        simp [List.cons_append] at h2
        rw [List.append_assoc]
        exact h2.2
    rw [e1]
    obtain ⟨s, t2, hst⟩ := ih hrest
    exact ⟨'{' :: s, t2, by simp [List.cons_append, hst]⟩
  | case4 c rest h1 h2 ih =>
    have e1 : replaceBrace u (c :: rest) = c :: replaceBrace u rest := by
      simp [replaceBrace, h1, h2]
    have hrest : ['{', '}'] <:+: rest := by
      obtain ⟨s, t2, hst⟩ := ht
      cases s with
      | nil =>
        simp at hst
        exact absurd hst.1.symm h2
      | cons a s2 =>
        refine ⟨s2, t2, ?_⟩
        have h2 := hst
        simp [List.cons_append] at h2
        rw [List.append_assoc]
        exact h2.2
    rw [e1]
    obtain ⟨s, t2, hst⟩ := ih hrest
    exact ⟨c :: s, t2, by simp [List.cons_append, hst]⟩

/-- **C10.** Substitution is a single left-to-right pass over the original
template: when the template contains the placeholder `{}`, the URL is
inserted verbatim into the result (it occurs there as a contiguous
substring), and in particular when the URL itself contains `{}`, the
occurrences it introduces are not themselves replaced — the result still
literally contains `{}`. -/
theorem C10_substitution_is_single_pass (t u : List Char)
    (ht : ['{', '}'] <:+: t) (hu : ['{', '}'] <:+: u) :
    u <:+: replaceBrace u t ∧ ['{', '}'] <:+: replaceBrace u t := by
  have h1 := self_infix_replaceBrace u t ht
  exact ⟨h1, hu.trans h1⟩

/-- Witness for C10: replacing `{}` with the brace-containing URL "x{}y"
in the template "run {}" leaves "x{}y" — braces included — verbatim in
the result. -/
theorem C10_substitution_is_single_pass_witness :
    ("x{}y".data <:+: replaceBrace "x{}y".data "run {}".data) ∧
    (['{', '}'] <:+: replaceBrace "x{}y".data "run {}".data) :=
  C10_substitution_is_single_pass "run {}".data "x{}y".data (by decide) (by decide)

end MapRepoUrls
